import Mathlib

/-!
Verification of the nested-table renderer of
`frontend/amundsen_application/static/js/components/Table/index.tsx`
(upstream/main side of the file).

The component receives a list of formatted row records (`FormattedDataType`),
an expansion state (a list of expanded row keys) and produces a flattened
list of display rows, including synthetic opener/closer marker rows that
bracket array- and map-kinded children.

The embedding below mirrors the source functions
`checkIfValidData`, `updateMapDisplayNames`, `getAllColumnKeys`,
`getKeysToExpand`, `getInitialExpandedRows`, `getFormattedChildrenData`,
`handleSpecificTypeRowData`, `getSpecificTypeOpenerRow`,
`getSpecificTypeCloserRow`, `getTableRows` and the expansion toggle of
`ExpandingCell`.  JavaScript runtime failures (property access on
`undefined`) are modelled with `Except`.
-/

namespace AmundsenTable

/-- Modelled from the spec: the `kind` tag value for array-typed rows.  The
constant is imported from a constants module that is not part of the given
sources; the spec only fixes that it tags array kinds. -/
def ARRAY_KIND : String := "array"

/-- Modelled from the spec: the `kind` tag value for map-typed rows. -/
def MAP_KIND : String := "map"

/-- Modelled from the spec: the internal role identifier of the key child of
a map row. -/
def MAP_KEY_NAME : String := "_map_key"

/-- Modelled from the spec: the internal role identifier of the value child
of a map row. -/
def MAP_VALUE_NAME : String := "_map_value"

/-- Modelled from the spec: the human-readable display title substituted for
the internal key role name. -/
def MAP_KEY_DISPLAY_NAME : String := "Key"

/-- Modelled from the spec: the human-readable display title substituted for
the internal value role name. -/
def MAP_VALUE_DISPLAY_NAME : String := "Value"

/-- Modelled from the spec: textual label prefix of an array opener row. -/
def ARRAY_LABEL : String := "array"

/-- Modelled from the spec: the array opening bracket symbol, repeated once
per nested array level in the opener row label. -/
def ARRAY_OPENER : String := "["

/-- Modelled from the spec: the array closing bracket symbol. -/
def ARRAY_CLOSER : String := "]"

/-- Modelled from the spec: textual label prefix of a map opener row. -/
def MAP_LABEL : String := "map"

/-- Modelled from the spec: the map opening bracket symbol. -/
def MAP_OPENER : String := "\x7b"

/-- Modelled from the spec: the map closing bracket symbol. -/
def MAP_CLOSER : String := "\x7d"

/-- Error message thrown by `Table` when the data fails schema validation
(`INVALID_DATA_ERROR_MESSAGE` in the source). -/
def INVALID_DATA_ERROR_MESSAGE : String :=
  "Invalid data! Your data does not contain the fields specified on the columns property."

/-- A formatted row record (`FormattedDataType`).  Fields kept are exactly
the ones the materializer reads: `key`, `name` (map role name), `kind`,
`isExpandable`, `content.title` (as `title`), `typeMetadata` and
`children`.  `Option` on `kind`, `typeMetadata` and `children` models
JavaScript `undefined`. -/
inductive Row : Type where
  | mk (key : String) (name : String) (kind : Option String) (isExpandable : Bool)
       (title : String) (typeMetadata : Option Row) (children : Option (List Row)) : Row

/-- The row's unique hierarchical key. -/
def Row.key : Row → String
  | .mk k _ _ _ _ _ _ => k

/-- The row's `name` field (the internal role name for map children). -/
def Row.name : Row → String
  | .mk _ n _ _ _ _ _ => n

/-- The row's `kind` tag (`undefined` modelled as `none`). -/
def Row.kind : Row → Option String
  | .mk _ _ kd _ _ _ _ => kd

/-- Whether the row is expandable. -/
def Row.isExpandable : Row → Bool
  | .mk _ _ _ e _ _ _ => e

/-- The row's `content.title` display title. -/
def Row.title : Row → String
  | .mk _ _ _ _ t _ _ => t

/-- The row's `typeMetadata` child, when present. -/
def Row.typeMetadata : Row → Option Row
  | .mk _ _ _ _ _ tm _ => tm

/-- The row's `children` list, when present. -/
def Row.children : Row → Option (List Row)
  | .mk _ _ _ _ _ _ ch => ch

/-- Copy of a row with the display title replaced (the
`\x7b ...child, content: \x7b ...child.content, title \x7d \x7d` spread in
`updateMapDisplayNames`). -/
def Row.withTitle : Row → String → Row
  | .mk k n kd e _ tm ch, t => .mk k n kd e t tm ch

mutual

/-- Number of nodes of a row tree (display titles and other strings do not
count, so title rewriting preserves it). -/
def Row.size : Row → Nat
  | .mk _ _ _ _ _ tm ch => 1 + Row.sizeOpt tm + Row.sizeOptList ch

/-- Size of an optional row. -/
def Row.sizeOpt : Option Row → Nat
  | none => 0
  | some r => Row.size r

/-- Size of an optional list of rows. -/
def Row.sizeOptList : Option (List Row) → Nat
  | none => 0
  | some l => Row.sizeList l

/-- Total size of a list of rows. -/
def Row.sizeList : List Row → Nat
  | [] => 0
  | r :: rs => Row.size r + Row.sizeList rs

end

theorem Row.one_le_size (r : Row) : 1 ≤ r.size := by
  cases r with
  | mk k n kd e t tm ch =>
    show 1 ≤ 1 + Row.sizeOpt tm + Row.sizeOptList ch
    omega

theorem Row.size_withTitle (r : Row) (t : String) : (r.withTitle t).size = r.size := by
  cases r with
  | mk k n kd e t' tm ch => rfl

theorem Row.sizeList_mem {r : Row} {l : List Row} (h : r ∈ l) : r.size ≤ Row.sizeList l := by
  induction l with
  | nil => cases h
  | cons x xs ih =>
    rcases List.mem_cons.mp h with h' | h'
    · subst h'; simp [Row.sizeList]
    · have := ih h'; simp [Row.sizeList]; omega

theorem Row.sizeList_children_lt {col : Row} {l : List Row}
    (h : col.children = some l) : Row.sizeList l < col.size := by
  cases col with
  | mk k n kd e t tm ch =>
    simp [Row.children] at h
    subst h
    simp [Row.size, Row.sizeOptList]

theorem Row.size_typeMetadata_lt {col tm : Row}
    (h : col.typeMetadata = some tm) : tm.size < col.size := by
  cases col with
  | mk k n kd e t tm' ch =>
    simp [Row.typeMetadata] at h
    subst h
    simp [Row.size, Row.sizeOpt]
    omega

theorem Row.sizeList_cons (r : Row) (l : List Row) :
    Row.sizeList (r :: l) = r.size + Row.sizeList l := rfl

/-- Modelled from the spec: `formatChildrenData` is supplied by the
metadata-formatting collaborator (out of scope); per the spec the row data
"must already satisfy the Row shape", so the formatter is the identity on
already-formatted rows. -/
def formatChildrenData (item : Row) : Row := item

/-- Source `getFormattedChildrenData`: `item.typeMetadata ?
[item.typeMetadata].map(formatChildrenData) :
item.children.map(formatChildrenData)`.  When neither `typeMetadata` nor
`children` is present the JavaScript code dereferences `undefined`; this is
modelled by the error case. -/
def getFormattedChildrenData (item : Row) : Except String (List Row) :=
  match item.typeMetadata with
  | some tm => .ok ([tm].map formatChildrenData)
  | none =>
    match item.children with
    | some cs => .ok (cs.map formatChildrenData)
    | none => .error "TypeError: cannot read map of undefined children"

/-- Source `updateMapDisplayNames`: rewrites each child's display title from
the internal map role name to the human-readable label. -/
def updateMapDisplayNames (childrenData : List Row) : List Row :=
  childrenData.map fun child =>
    let displayName :=
      if child.name = MAP_KEY_NAME then MAP_KEY_DISPLAY_NAME
      else if child.name = MAP_VALUE_NAME then MAP_VALUE_DISPLAY_NAME
      else child.name
    child.withTitle displayName

theorem map_formatChildrenData (l : List Row) : l.map formatChildrenData = l := by
  induction l with
  | nil => rfl
  | cons x xs ih => simp [formatChildrenData, ih]

theorem getFormattedChildrenData_size {item : Row} {l : List Row}
    (h : getFormattedChildrenData item = .ok l) : Row.sizeList l < item.size := by
  cases item with
  | mk k n kd e t tm ch =>
    cases tm with
    | some tmr =>
      simp [getFormattedChildrenData, Row.typeMetadata, formatChildrenData] at h
      subst h
      simp [Row.sizeList, Row.size, Row.sizeOpt]
      omega
    | none =>
      cases ch with
      | some cs =>
        simp [getFormattedChildrenData, Row.typeMetadata, Row.children,
          map_formatChildrenData] at h
        subst h
        simp [Row.size, Row.sizeOpt, Row.sizeOptList]
      | none =>
        simp [getFormattedChildrenData, Row.typeMetadata, Row.children] at h

theorem getFormattedChildrenData_mem_size {item c0 : Row} {l : List Row}
    (h : getFormattedChildrenData item = .ok l) (hm : c0 ∈ l) : c0.size < item.size := by
  calc c0.size ≤ Row.sizeList l := Row.sizeList_mem hm
    _ < item.size := getFormattedChildrenData_size h

/-- The `while (rowValuesToDisplay.kind === ARRAY_KIND)` loop of
`handleSpecificTypeRowData`: walks through consecutive array layers,
accumulating the nesting count, descending while the first formatted child
is expandable; on a non-expandable first child it adds one more level when
that child is itself array-kinded and stops.  The loop's local
`formattedChildren` value is dead after the loop (it is unconditionally
recomputed), so only the final row and count are returned.  An empty child
list makes the JavaScript code read `undefined.isExpandable` (error case). -/
def specificTypeLoop (rv : Row) (arrayCount : Nat) : Except String (Row × Nat) :=
  if rv.kind = some ARRAY_KIND then
    match h : getFormattedChildrenData rv with
    | .error e => .error e
    | .ok [] => .error "TypeError: cannot read isExpandable of undefined"
    | .ok (c0 :: rest) =>
      if c0.isExpandable then specificTypeLoop c0 (arrayCount + 1)
      else
        .ok (rv, if c0.kind = some ARRAY_KIND then arrayCount + 2 else arrayCount + 1)
  else .ok (rv, arrayCount)
termination_by rv.size
decreasing_by
  exact getFormattedChildrenData_mem_size h (by simp)

theorem specificTypeLoop_size {rv : Row} {ac : Nat} {rv' : Row} {ac' : Nat}
    (h : specificTypeLoop rv ac = .ok (rv', ac')) : rv'.size ≤ rv.size := by
  induction rv, ac using specificTypeLoop.induct with
  | case1 rv ac hkind e heq =>
    rw [specificTypeLoop, if_pos hkind, heq] at h
    cases h
  | case2 rv ac hkind heq =>
    rw [specificTypeLoop, if_pos hkind, heq] at h
    cases h
  | case3 rv ac hkind c0 rest heq hexp ih =>
    rw [specificTypeLoop, if_pos hkind, heq] at h
    simp only [if_pos hexp] at h
    have h1 := ih h
    have h2 : c0.size < rv.size := getFormattedChildrenData_mem_size heq (by simp)
    omega
  | case4 rv ac hkind c0 rest heq hexp =>
    rw [specificTypeLoop, if_pos hkind, heq] at h
    simp only [if_neg hexp] at h
    simp only [Except.ok.injEq, Prod.mk.injEq] at h
    rw [← h.1]
  | case5 rv ac hkind =>
    rw [specificTypeLoop, if_neg hkind] at h
    cases h
    exact Nat.le_refl _

theorem updateMapDisplayNames_sizeList (l : List Row) :
    Row.sizeList (updateMapDisplayNames l) = Row.sizeList l := by
  induction l with
  | nil => rfl
  | cons x xs ih =>
    simp [updateMapDisplayNames, Row.sizeList, Row.size_withTitle] at *
    omega

/-- The initial `rowValuesToDisplay` of `handleSpecificTypeRowData`: the
formatted `typeMetadata` child when present (`formattedChildren[0]` where
`formattedChildren = [initialRowValues.typeMetadata].map(formatChildrenData)`),
else the row itself. -/
def initialRowValuesToDisplay (initialRowValues : Row) : Row :=
  match initialRowValues.typeMetadata with
  | some tm => formatChildrenData tm
  | none => initialRowValues

/-- Source `handleSpecificTypeRowData`: computes the effective row whose
values are displayed (`rowValuesToDisplay`), the formatted children to
recurse into, and the accumulated array nesting count.  The initial
assignment, the array while-loop, the terminal-array special case
(`formattedChildren = []`) and the map title rewriting follow the source
line by line. -/
def handleSpecificTypeRowData (initialRowValues : Row) :
    Except String (Row × List Row × Nat) :=
  match specificTypeLoop (initialRowValuesToDisplay initialRowValues) 0 with
  | .error e => .error e
  | .ok (rv, arrayCount) =>
    if rv.kind = some ARRAY_KIND then
      .ok (rv, [], arrayCount)
    else
      match getFormattedChildrenData rv with
      | .error e => .error e
      | .ok fc =>
        .ok (rv, if rv.kind = some MAP_KIND then updateMapDisplayNames fc else fc,
             arrayCount)

theorem handleSpecificTypeRowData_size {item rv : Row} {fc : List Row} {ac : Nat}
    (h : handleSpecificTypeRowData item = .ok (rv, fc, ac)) :
    Row.sizeList fc < item.size ∧ rv.size ≤ item.size := by
  rw [handleSpecificTypeRowData] at h
  have hrv0 : (initialRowValuesToDisplay item).size ≤ item.size := by
    rw [initialRowValuesToDisplay]
    split
    · rename_i tm hm
      simp only [formatChildrenData]
      exact le_of_lt (Row.size_typeMetadata_lt hm)
    · exact le_refl _
  split at h
  · cases h
  · rename_i rv1 ac1 hloop
    have hle : rv1.size ≤ item.size := le_trans (specificTypeLoop_size hloop) hrv0
    split at h
    · simp only [Except.ok.injEq, Prod.mk.injEq] at h
      obtain ⟨h1, h2, h3⟩ := h
      subst h1; subst h2
      constructor
      · simpa [Row.sizeList] using lt_of_lt_of_le (Nat.lt_of_lt_of_le Nat.zero_lt_one
          (Row.one_le_size item)) (le_refl _)
      · exact hle
    · split at h
      · cases h
      · rename_i fc1 hfc
        simp only [Except.ok.injEq, Prod.mk.injEq] at h
        obtain ⟨h1, h2, h3⟩ := h
        subst h1
        have hsz : Row.sizeList fc1 < rv1.size := getFormattedChildrenData_size hfc
        constructor
        · rw [← h2]
          split
          · rw [updateMapDisplayNames_sizeList]
            omega
          · omega
        · exact hle

theorem Row.sizeList_lt_cons (r : Row) (l : List Row) :
    Row.sizeList l < Row.sizeList (r :: l) := by
  have := Row.one_le_size r
  simp [Row.sizeList]
  omega

/-- A flattened display row: a real table row (`TableRow` element rendered
for a data item), or a synthetic opener/closer marker row.  `label` is the
text of the single labelled cell of a marker row. -/
inductive DisplayRow : Type where
  | parent (columnKey : String) (rowValues : Row) (nestedLevel : Nat) : DisplayRow
  | opener (key : String) (label : String) (nestedLevel : Nat) : DisplayRow
  | closer (key : String) (label : String) (nestedLevel : Nat) : DisplayRow

/-- Repeated string concatenation (JavaScript `String.prototype.repeat`). -/
def strRepeat (s : String) : Nat → String
  | 0 => ""
  | n + 1 => s ++ strRepeat s n

/-- Source `getSpecificTypeOpenerRow`: emits the synthetic opener marker row
exactly when the effective row needs specific-type handling (positive array
nesting count or map kind); its label stacks one array opening bracket per
nesting level, then the map opener. -/
def getSpecificTypeOpenerRow (rowValuesToDisplay : Row) (arrayCount : Nat)
    (nestedLevel : Nat) : Option DisplayRow :=
  let hasSpecificTypeHandling :=
    arrayCount > 0 ∨ rowValuesToDisplay.kind = some MAP_KIND
  if hasSpecificTypeHandling then
    let arrayOpenerLabel :=
      if arrayCount > 0 then ARRAY_LABEL ++ strRepeat ARRAY_OPENER arrayCount else ""
    let mapOpenerLabel :=
      if rowValuesToDisplay.kind = some MAP_KIND then MAP_LABEL ++ MAP_OPENER else ""
    some (.opener rowValuesToDisplay.key (arrayOpenerLabel ++ " " ++ mapOpenerLabel)
      nestedLevel)
  else none

/-- Source `getSpecificTypeCloserRow`: the matching closer marker row, with
the map closer first and one array closing bracket per nesting level. -/
def getSpecificTypeCloserRow (rowValuesToDisplay : Row) (arrayCount : Nat)
    (nestedLevel : Nat) : Option DisplayRow :=
  let hasSpecificTypeHandling :=
    arrayCount > 0 ∨ rowValuesToDisplay.kind = some MAP_KIND
  if hasSpecificTypeHandling then
    let arrayCloserLabel :=
      if arrayCount > 0 then strRepeat ARRAY_CLOSER arrayCount else ""
    let mapCloserLabel :=
      if rowValuesToDisplay.kind = some MAP_KIND then MAP_CLOSER else ""
    some (.closer rowValuesToDisplay.key (mapCloserLabel ++ " " ++ arrayCloserLabel)
      nestedLevel)
  else none

/-- Source `getTableRows`: the recursive materializer.  Folds over the data
in order; each item contributes its parent row and, when it is expandable
and its key is in `expandedRows`, the opener marker, the recursively
materialized formatted children at the next nesting level, and the closer
marker.  The JavaScript array literally contains the `null` opener/closer
placeholders when no marker applies, modelled by `Option DisplayRow`
entries; a `none` entry renders nothing.  The `formatChildrenData` prop is
taken as supplied (the guard `&& formatChildrenData` is true). -/
def getTableRows (data : List Row) (expandedRows : List String) (nestedLevel : Nat) :
    Except String (List (Option DisplayRow)) :=
  match data with
  | [] => .ok []
  | item :: rest =>
    if item.isExpandable && expandedRows.contains item.key then
      match hs : handleSpecificTypeRowData item with
      | .error e => .error e
      | .ok (rowValuesToDisplay, formattedChildren, arrayCount) =>
        match getTableRows formattedChildren expandedRows (nestedLevel + 1) with
        | .error e => .error e
        | .ok childRows =>
          match getTableRows rest expandedRows nestedLevel with
          | .error e => .error e
          | .ok restRows =>
            .ok ([some (.parent item.key item nestedLevel),
                  getSpecificTypeOpenerRow rowValuesToDisplay arrayCount nestedLevel] ++
                 childRows ++
                 [getSpecificTypeCloserRow rowValuesToDisplay arrayCount nestedLevel] ++
                 restRows)
    else
      match getTableRows rest expandedRows nestedLevel with
      | .error e => .error e
      | .ok restRows => .ok (some (.parent item.key item nestedLevel) :: restRows)
termination_by Row.sizeList data
decreasing_by
  · have := (handleSpecificTypeRowData_size hs).1
    simp [Row.sizeList]
    omega
  · exact Row.sizeList_lt_cons _ _
  · exact Row.sizeList_lt_cons _ _

theorem getTableRows_nil (S : List String) (n : Nat) :
    getTableRows [] S n = .ok [] := by
  rw [getTableRows]

theorem initialRowValuesToDisplay_of_none {item : Row}
    (h : item.typeMetadata = none) : initialRowValuesToDisplay item = item := by
  rw [initialRowValuesToDisplay, h]

theorem initialRowValuesToDisplay_of_some {item tm : Row}
    (h : item.typeMetadata = some tm) : initialRowValuesToDisplay item = tm := by
  rw [initialRowValuesToDisplay, h]
  rfl

theorem specificTypeLoop_not_array {rv : Row} (ac : Nat)
    (h : ¬ rv.kind = some ARRAY_KIND) : specificTypeLoop rv ac = .ok (rv, ac) := by
  rw [specificTypeLoop, if_neg h]

theorem handleSpecific_not_array {item rv0 : Row}
    (hinit : initialRowValuesToDisplay item = rv0)
    (hka : ¬ rv0.kind = some ARRAY_KIND) :
    handleSpecificTypeRowData item =
      match getFormattedChildrenData rv0 with
      | .error e => .error e
      | .ok fc =>
        .ok (rv0, if rv0.kind = some MAP_KIND then updateMapDisplayNames fc else fc,
             0) := by
  rw [handleSpecificTypeRowData, hinit, specificTypeLoop_not_array 0 hka]
  simp only [if_neg hka]

theorem getTableRows_cons_not_expanded {item : Row} {rest : List Row}
    {S : List String} {n : Nat}
    (hg : (item.isExpandable && S.contains item.key) = false) :
    getTableRows (item :: rest) S n =
      match getTableRows rest S n with
      | .error e => .error e
      | .ok restRows => .ok (some (.parent item.key item n) :: restRows) := by
  rw [getTableRows, hg]
  simp

theorem getTableRows_cons_expanded {item : Row} {rest : List Row}
    {S : List String} {n : Nat} {rv : Row} {fc : List Row} {ac : Nat}
    (hg : (item.isExpandable && S.contains item.key) = true)
    (hh : handleSpecificTypeRowData item = .ok (rv, fc, ac)) :
    getTableRows (item :: rest) S n =
      match getTableRows fc S (n + 1) with
      | .error e => .error e
      | .ok childRows =>
        match getTableRows rest S n with
        | .error e => .error e
        | .ok restRows =>
          .ok ([some (.parent item.key item n),
                getSpecificTypeOpenerRow rv ac n] ++ childRows ++
               [getSpecificTypeCloserRow rv ac n] ++ restRows) := by
  rw [getTableRows, hg]
  simp only [if_true]
  rw [hh]

theorem getTableRows_cons_handle_error {item : Row} {rest : List Row}
    {S : List String} {n : Nat} {e : String}
    (hg : (item.isExpandable && S.contains item.key) = true)
    (hh : handleSpecificTypeRowData item = .error e) :
    getTableRows (item :: rest) S n = .error e := by
  rw [getTableRows, hg]
  simp only [if_true]
  rw [hh]

/-- A raw data row as seen by `checkIfValidData`: only the set of field
names the row defines matters (`row[field] !== undefined`; a `null` value
still counts as defined). -/
structure DataRow where
  fields : List String
deriving DecidableEq, Repr

/-- Source `fieldIsDefined`: `row[field] !== undefined`. -/
def fieldIsDefined (field : String) (row : DataRow) : Bool :=
  row.fields.contains field

/-- Source `checkIfValidData`: for each column field, requires that SOME row
defines it (`data.some(fieldIsDefined.bind(null, fields[i]))`); the loop
breaks on the first field defined by no row. -/
def checkIfValidData (data : List DataRow) (fields : List String) : Bool :=
  fields.all fun field => data.any (fieldIsDefined field)

/-- The validation step of the `Table` component body: with non-empty data,
`checkIfValidData` failing throws `INVALID_DATA_ERROR_MESSAGE`; otherwise
the data is rendered (empty data renders the empty-message row). -/
def renderTable (data : List DataRow) (fields : List String) :
    Except String (List DataRow) :=
  if data.length ≠ 0 then
    if checkIfValidData data fields then .ok data
    else .error INVALID_DATA_ERROR_MESSAGE
  else .ok []

/-- Source `ExpandingCell`/`ExpandingButton`: `isExpanded =
expandedRows.includes(rowKey)`. -/
def isExpanded (expandedRows : List String) (rowKey : String) : Bool :=
  expandedRows.contains rowKey

/-- Source `handleExpandButton`: the new expansion state passed to
`onClick` (`setExpandedRows`) — the key is filtered out when currently
expanded, appended otherwise. -/
def handleExpandButton (expandedRows : List String) (rowKey : String) : List String :=
  if isExpanded expandedRows rowKey then
    expandedRows.filter fun k => k ≠ rowKey
  else expandedRows ++ [rowKey]

/-- The list a `getAllColumnKeys` step recurses into: the guard
`col.typeMetadata?.children?.length` selects `typeMetadata.children` when
non-empty, else the guard `col.children?.length` selects `children` when
non-empty, else nothing (recursing into the empty list contributes no
keys, matching the source's empty `childKeys`). -/
def effectiveChildList (col : Row) : List Row :=
  match col.typeMetadata with
  | some tm =>
    match tm.children with
    | some (c :: cs) => c :: cs
    | _ =>
      match col.children with
      | some (c :: cs) => c :: cs
      | _ => []
  | none =>
    match col.children with
    | some (c :: cs) => c :: cs
    | _ => []

theorem effectiveChildList_size (col : Row) :
    Row.sizeList (effectiveChildList col) < col.size := by
  rw [effectiveChildList]
  split
  · rename_i tm htm
    split
    · rename_i c cs htc
      exact lt_trans (Row.sizeList_children_lt htc) (Row.size_typeMetadata_lt htm)
    · split
      · rename_i c cs hcc
        exact Row.sizeList_children_lt hcc
      · simpa [Row.sizeList] using Row.one_le_size col
  · split
    · rename_i c cs hcc
      exact Row.sizeList_children_lt hcc
    · simpa [Row.sizeList] using Row.one_le_size col

theorem effectiveChildList_size_cons (r : Row) (l : List Row) :
    Row.sizeList (effectiveChildList r) < Row.sizeList (r :: l) := by
  have h := effectiveChildList_size r
  simp only [Row.sizeList_cons]
  omega

/-- Source `getAllColumnKeys`: collects every column's `key`, recursing into
`typeMetadata.children` when that list is non-empty, else into `children`
when non-empty (the guard selection is factored into
`effectiveChildList`). -/
def getAllColumnKeys (columns : List Row) : List String :=
  match columns with
  | [] => []
  | col :: rest =>
    col.key :: (getAllColumnKeys (effectiveChildList col) ++ getAllColumnKeys rest)
termination_by Row.sizeList columns
decreasing_by
  · exact effectiveChildList_size_cons _ _
  · exact Row.sizeList_lt_cons _ _

/-- Modelled from the spec: a deep-link target key (`preExpandPanelKey`)
parsed against the fixed path grammar used by `getKeysToExpand` — the
table-level key prefix, a top-level column name, then repeated
type-metadata segments for nested children.  The regex constants
(`COLUMN_NAME_REGEX`, `TYPE_METADATA_REGEX`) are imported from a module not
part of the given sources, so the grammar is represented by its parsed
segments. -/
structure PanelKey where
  table : String
  column : String
  nested : List String
deriving DecidableEq, Repr

/-- The top-level column key matched by `tableKey + COLUMN_NAME_REGEX`. -/
def columnKeyOf (k : PanelKey) : String := k.table ++ "/" ++ k.column

/-- The successively longer matches of the while-loop of
`getKeysToExpand`: each further type-metadata segment extends the previous
match by one path level. -/
def nestedPrefixKeys (base : String) : List String → List String
  | [] => []
  | s :: rest =>
    let nextKey := base ++ "/type/" ++ s
    nextKey :: nestedPrefixKeys nextKey rest

/-- Modelled from the spec: source `getKeysToExpand` — when a deep-link
target is supplied and its table-level prefix matches `tableKey`, the
top-level column key and each successively longer type-metadata prefix are
accumulated; a missing target or a target that does not match the path
grammar yields the empty list. -/
def getKeysToExpand (preExpandPanelKey : Option PanelKey) (tableKey : String) :
    List String :=
  match preExpandPanelKey with
  | none => []
  | some k =>
    if k.table = tableKey then
      columnKeyOf k :: nestedPrefixKeys (columnKeyOf k) k.nested
    else []

/-- JavaScript `allColumnKeys.length <= maxNumRows` with `maxNumRows`
possibly `undefined` (any comparison with `undefined` is false). -/
def leOptNat (n : Nat) : Option Nat → Bool
  | some m => n ≤ m
  | none => false

/-- Source `getInitialExpandedRows`: expands every key when there are at
most `maxNumRows` of them, otherwise only the deep-link key path.  The
`data` argument is unused, as in the source. -/
def getInitialExpandedRows (data : List Row) (allColumnKeys : List String)
    (maxNumRows : Option Nat) (preExpandPanelKey : Option PanelKey)
    (tableKey : String) : List String :=
  if leOptNat allColumnKeys.length maxNumRows then allColumnKeys
  else getKeysToExpand preExpandPanelKey tableKey

/-- The rows visited by the `getAllColumnKeys` walk, in visit order: each
column itself, then recursively its `effectiveChildList`, then the rest. -/
def collectRows (columns : List Row) : List Row :=
  match columns with
  | [] => []
  | col :: rest =>
    col :: (collectRows (effectiveChildList col) ++ collectRows rest)
termination_by Row.sizeList columns
decreasing_by
  · exact effectiveChildList_size_cons _ _
  · exact Row.sizeList_lt_cons _ _

/-- Number of occurrences of a character in a string. -/
def countChar (s : String) (c : Char) : Nat := s.data.count c

theorem countChar_append (s t : String) (c : Char) :
    countChar (s ++ t) c = countChar s c + countChar t c := by
  have h : (s ++ t).data = s.data ++ t.data := by
    cases s; cases t; rfl
  simp [countChar, h, List.count_append]

theorem countChar_strRepeat (s : String) (c : Char) (n : Nat) :
    countChar (strRepeat s n) c = n * countChar s c := by
  induction n with
  | zero => simp [strRepeat, countChar]
  | succ m ih =>
    rw [strRepeat, countChar_append, ih]
    ring

/-- C2: for every input sequence of Rows (of any nesting depth),
materializing with an empty expansion state produces exactly one DisplayRow
per top-level Row, in the same order as the input, and no opener, closer,
or child rows. -/
theorem c2_empty_expansion_one_row_each (data : List Row) (nestedLevel : Nat) :
    getTableRows data [] nestedLevel =
      .ok (data.map fun r => some (DisplayRow.parent r.key r nestedLevel)) := by
  induction data with
  | nil => rw [getTableRows]; rfl
  | cons item rest ih =>
    rw [getTableRows]
    have hc : (List.contains [] item.key) = false := rfl
    simp [hc, ih]

/-- C3: for every expansion state and key, `isExpanded` of that key after
the expand-button toggle is the negation of its value before, and applying
the toggle twice restores `isExpanded` of every key to its original value. -/
theorem c3_toggle_involution (S : List String) (k : String) :
    isExpanded (handleExpandButton S k) k = !(isExpanded S k) ∧
    ∀ j, isExpanded (handleExpandButton (handleExpandButton S k) k) j =
      isExpanded S j := by
  constructor
  · by_cases hk : k ∈ S
    · simp [isExpanded, handleExpandButton, hk, List.mem_filter]
    · simp [isExpanded, handleExpandButton, hk]
  · intro j
    by_cases hk : k ∈ S
    · have h1 : handleExpandButton S k = S.filter fun x => x ≠ k := by
        simp [handleExpandButton, isExpanded, hk]
      have h2 : isExpanded (S.filter fun x => x ≠ k) k = false := by
        simp [isExpanded, List.mem_filter]
      rw [h1]
      rw [handleExpandButton, h2]
      simp only [Bool.false_eq_true, if_false]
      by_cases hj : j = k
      · subst hj
        simp [isExpanded, hk, List.mem_filter]
      · simp [isExpanded, List.mem_filter, hj]
    · have h1 : handleExpandButton S k = S ++ [k] := by
        simp [handleExpandButton, isExpanded, hk]
      have h2 : isExpanded (S ++ [k]) k = true := by
        simp [isExpanded]
      rw [h1, handleExpandButton, h2]
      simp only [if_true]
      by_cases hj : j = k
      · subst hj
        simp [isExpanded, hk, List.mem_filter]
      · simp [isExpanded, List.mem_filter, hj]

/-- First data row of the C6 counterexample: defines the `name` field. -/
def c6row1 : DataRow := ⟨["name"]⟩

/-- Second data row of the C6 counterexample: defines no field at all. -/
def c6row2 : DataRow := ⟨[]⟩

/-- C6 counterexample: a row that fails to define a declared column field
does not make the render refuse — validation only requires each field to be
defined by SOME row, so the render proceeds even though `c6row2` defines no
value for `name`. -/
theorem c6_counterexample :
    renderTable [c6row1, c6row2] ["name"] = .ok [c6row1, c6row2] ∧
    c6row2 ∈ [c6row1, c6row2] ∧
    fieldIsDefined "name" c6row2 = false := by
  exact ⟨rfl, by simp, rfl⟩

/-- C6 as amended: the render refuses with the explicit validation error
exactly when the data is non-empty and some declared column field is
defined by NO row; a single row missing a field that another row defines
does not trigger the failure. -/
theorem c6_refuses_iff_field_undefined_everywhere (data : List DataRow)
    (fields : List String) :
    renderTable data fields = .error INVALID_DATA_ERROR_MESSAGE ↔
      data ≠ [] ∧ ∃ f ∈ fields, ∀ r ∈ data, fieldIsDefined f r = false := by
  rw [renderTable]
  rcases data with _ | ⟨r, rs⟩
  · simp
  · have hne : (r :: rs).length ≠ 0 := by simp
    rw [if_pos hne]
    by_cases hch : checkIfValidData (r :: rs) fields = true
    · rw [if_pos hch]
      constructor
      · intro h; simp at h
      · rintro ⟨-, f, hf, hall⟩
        exfalso
        simp only [checkIfValidData, List.all_eq_true] at hch
        have := hch f hf
        simp only [List.any_eq_true] at this
        obtain ⟨r', hr', hdef⟩ := this
        rw [hall r' hr'] at hdef
        cases hdef
    · rw [if_neg hch]
      have hex : ∃ f ∈ fields, ∀ r' ∈ r :: rs, fieldIsDefined f r' = false := by
        by_contra hno
        push_neg at hno
        apply hch
        simp only [checkIfValidData, List.all_eq_true]
        intro f hf
        obtain ⟨r', hr', hdef⟩ := hno f hf
        simp only [List.any_eq_true]
        exact ⟨r', hr', by simpa using hdef⟩
      constructor
      · intro _
        exact ⟨by simp, hex⟩
      · intro _
        rfl

/-- C6 witness for the amended theorem: a concrete schema whose only field
no row defines is refused with the validation error. -/
theorem c6_witness :
    renderTable [c6row2] ["name"] = .error INVALID_DATA_ERROR_MESSAGE :=
  (c6_refuses_iff_field_undefined_everywhere [c6row2] ["name"]).mpr
    ⟨by simp, "name", by simp, by decide⟩

/-- The single non-expandable row of the C8 counterexample. -/
def c8row : Row := .mk "a" "" none false "" none none

/-- C8 counterexample: `getAllColumnKeys` collects the key of every visited
row, not only expandable ones — for a tree consisting of one non-expandable
row, its key is in the result although no row of the tree is expandable. -/
theorem c8_counterexample :
    getAllColumnKeys [c8row] = ["a"] ∧
    collectRows [c8row] = [c8row] ∧
    c8row.isExpandable = false := by
  refine ⟨?_, ?_, rfl⟩
  · rw [getAllColumnKeys]
    simp [c8row, effectiveChildList, Row.typeMetadata, Row.children, Row.key,
      getAllColumnKeys]
  · rw [collectRows]
    simp [c8row, effectiveChildList, Row.typeMetadata, Row.children, collectRows]

/-- C8 as amended: `allColumnKeys` contains exactly the keys of all the
rows visited by the recursive walk (descending into `typeMetadata.children`
when non-empty, else `children`), regardless of expandability. -/
theorem c8_keys_of_all_visited_rows (columns : List Row) :
    getAllColumnKeys columns = (collectRows columns).map Row.key := by
  induction columns using collectRows.induct with
  | case1 => rw [getAllColumnKeys, collectRows]; rfl
  | case2 col rest ih1 ih2 =>
    rw [getAllColumnKeys, collectRows]
    simp [ih1, ih2]

/-- A single-chain row tree whose keys are exactly the path prefixes
`base`, `base/type/s1`, `base/type/s1/type/s2`, ... used to exhibit a data
set whose full key list coincides with a deep-link key path. -/
def chainRow (base : String) : List String → Row
  | [] => .mk base "" none false "" none none
  | s :: rest =>
    .mk base "" none true "" none (some [chainRow (base ++ "/type/" ++ s) rest])

theorem getAllColumnKeys_chainRow (l : List String) :
    ∀ b, getAllColumnKeys [chainRow b l] = b :: nestedPrefixKeys b l := by
  induction l with
  | nil =>
    intro b
    rw [getAllColumnKeys]
    simp [chainRow, effectiveChildList, Row.typeMetadata, Row.children, Row.key,
      getAllColumnKeys, nestedPrefixKeys]
  | cons s rest ih =>
    intro b
    rw [getAllColumnKeys]
    have hec : effectiveChildList (chainRow b (s :: rest)) =
        [chainRow (b ++ "/type/" ++ s) rest] := by
      simp [chainRow, effectiveChildList, Row.typeMetadata, Row.children]
    rw [hec, ih]
    simp [chainRow, Row.key, getAllColumnKeys, nestedPrefixKeys]

theorem nestedPrefixKeys_length (l : List String) :
    ∀ b, (nestedPrefixKeys b l).length = l.length := by
  induction l with
  | nil => intro b; rfl
  | cons s rest ih => intro b; simp [nestedPrefixKeys, ih]

/-- Deep-link target of the C5 counterexample: 49 nested type-metadata
segments below column `c` of table `t`. -/
def c5segs : List String := (List.range 49).map toString

/-- Parsed deep-link target key for the C5 counterexample. -/
def c5pk : PanelKey := ⟨"t", "c", c5segs⟩

/-- Row data of the C5 counterexample: one 50-deep chain whose keys are
exactly the target's path prefixes. -/
def c5rows : List Row := [chainRow "t/c" c5segs]

/-- C5 counterexample: with 50 keys and a maximum of 20, the initial
expansion set CAN equal the full 50-key set — when the rows' keys are
exactly the deep-link target's path prefixes the deep-link path is the full
key set, contradicting "the initial set never equals all 50 keys". -/
theorem c5_counterexample :
    (getAllColumnKeys c5rows).length = 50 ∧
    getInitialExpandedRows c5rows (getAllColumnKeys c5rows) (some 20) (some c5pk)
      "t" = getAllColumnKeys c5rows := by
  have hkeys : getAllColumnKeys c5rows = "t/c" :: nestedPrefixKeys "t/c" c5segs :=
    getAllColumnKeys_chainRow c5segs "t/c"
  have hlen : (getAllColumnKeys c5rows).length = 50 := by
    rw [hkeys]
    simp [nestedPrefixKeys_length, c5segs]
  refine ⟨hlen, ?_⟩
  rw [getInitialExpandedRows]
  have hle : leOptNat (getAllColumnKeys c5rows).length (some 20) = false := by
    rw [hlen]
    rfl
  rw [hle]
  simp only [Bool.false_eq_true, if_false]
  rw [getKeysToExpand]
  have ht : c5pk.table = "t" := rfl
  rw [if_pos ht]
  have hcol : columnKeyOf c5pk = "t/c" := by rfl
  rw [hcol, hkeys]
  rfl

/-- C5 as amended: when the key count exceeds the configured maximum, the
initial expansion set is exactly the path-prefix keys derived from the
deep-link target (empty when no target is supplied or the target's table
prefix does not match); it is not automatically the full key set, but can
coincide with it when the row keys are exactly those prefixes. -/
theorem c5_large_key_set_uses_deep_link_path (data : List Row)
    (allColumnKeys : List String) (maxNumRows : Option Nat)
    (pre : Option PanelKey) (tableKey : String)
    (h : leOptNat allColumnKeys.length maxNumRows = false) :
    getInitialExpandedRows data allColumnKeys maxNumRows pre tableKey =
      getKeysToExpand pre tableKey ∧
    getKeysToExpand none tableKey = [] ∧
    ∀ k, getKeysToExpand (some k) tableKey =
      if k.table = tableKey then
        columnKeyOf k :: nestedPrefixKeys (columnKeyOf k) k.nested
      else [] := by
  refine ⟨?_, rfl, fun k => rfl⟩
  rw [getInitialExpandedRows, h]
  simp

/-- C5 witness: the amended theorem applied at a concrete key set of two
keys with maximum one and no deep-link target. -/
theorem c5_witness :
    getInitialExpandedRows [] ["a", "b"] (some 1) none "t" =
      getKeysToExpand none "t" ∧
    getKeysToExpand none "t" = [] ∧
    ∀ k, getKeysToExpand (some k) "t" =
      if k.table = "t" then
        columnKeyOf k :: nestedPrefixKeys (columnKeyOf k) k.nested
      else [] :=
  c5_large_key_set_uses_deep_link_path [] ["a", "b"] (some 1) none "t" rfl

/-- The expandable row of the C7 counterexample: no `typeMetadata` and no
`children` at all. -/
def c7row : Row := .mk "k" "" none true "" none none

/-- C7 counterexample: an expandable row with neither `typeMetadata` nor a
`children` sequence IS fatal when its key is expanded — the code
dereferences the missing children and materialization fails, instead of
rendering the parent with no children. -/
theorem c7_counterexample :
    getTableRows [c7row] ["k"] 0 =
      .error "TypeError: cannot read map of undefined children" := by
  have hguard : (c7row.isExpandable && List.contains ["k"] c7row.key) = true := by
    simp [c7row, Row.isExpandable, Row.key]
  have hka : ¬ c7row.kind = some ARRAY_KIND := by
    simp [c7row, Row.kind]
  have hfcd : getFormattedChildrenData c7row =
      .error "TypeError: cannot read map of undefined children" := by
    rw [getFormattedChildrenData]
    rfl
  have hinit : initialRowValuesToDisplay c7row = c7row :=
    initialRowValuesToDisplay_of_none rfl
  have hh : handleSpecificTypeRowData c7row =
      .error "TypeError: cannot read map of undefined children" := by
    rw [handleSpecific_not_array hinit hka, hfcd]
  exact getTableRows_cons_handle_error hguard hh

/-- C7 as amended: an expandable row whose children list is present but
empty (and that is not array- or map-kinded) is not fatal when expanded:
the parent display row is emitted, no child rows are rendered, and the
opener/closer placeholders are null. -/
theorem c7_empty_children_not_fatal (r : Row) (S : List String) (n : Nat)
    (he : r.isExpandable = true) (hk : r.key ∈ S)
    (htm : r.typeMetadata = none) (hch : r.children = some [])
    (hka : r.kind ≠ some ARRAY_KIND) (hkm : r.kind ≠ some MAP_KIND) :
    getTableRows [r] S n = .ok [some (.parent r.key r n), none, none] := by
  have hguard : (r.isExpandable && S.contains r.key) = true := by
    simp [he, hk]
  have hfcd : getFormattedChildrenData r = .ok [] := by
    rw [getFormattedChildrenData, htm, hch]
    rfl
  have hh : handleSpecificTypeRowData r = .ok (r, [], 0) := by
    rw [handleSpecific_not_array (initialRowValuesToDisplay_of_none htm) hka, hfcd]
    simp [hkm]
  have hopener : getSpecificTypeOpenerRow r 0 n = none := by
    simp [getSpecificTypeOpenerRow, hkm]
  have hcloser : getSpecificTypeCloserRow r 0 n = none := by
    simp [getSpecificTypeCloserRow, hkm]
  rw [getTableRows_cons_expanded hguard hh, getTableRows_nil, getTableRows_nil]
  simp [hopener, hcloser]

/-- C7 witness: the amended theorem applied to a concrete expandable row
with an empty children list and its key expanded. -/
theorem c7_witness :
    getTableRows [Row.mk "k" "" none true "" none (some [])] ["k"] 0 =
      .ok [some (.parent "k" (Row.mk "k" "" none true "" none (some [])) 0),
           none, none] :=
  c7_empty_children_not_fatal (Row.mk "k" "" none true "" none (some [])) ["k"] 0
    rfl (by simp [Row.key]) rfl rfl (by simp [Row.kind]) (by simp [Row.kind])

theorem Row.key_withTitle (r : Row) (t : String) : (r.withTitle t).key = r.key := by
  cases r
  rfl

theorem Row.title_withTitle (r : Row) (t : String) : (r.withTitle t).title = t := by
  cases r
  rfl

theorem Row.isExpandable_withTitle (r : Row) (t : String) :
    (r.withTitle t).isExpandable = r.isExpandable := by
  cases r
  rfl

theorem String.append_empty_right (s : String) : s ++ "" = s := by
  cases s with
  | mk d =>
    show String.mk (d ++ []) = String.mk d
    rw [List.append_nil]

theorem getSpecificTypeOpenerRow_map {rv : Row} (n : Nat)
    (hkm : rv.kind = some MAP_KIND) :
    getSpecificTypeOpenerRow rv 0 n =
      some (.opener rv.key (" " ++ (MAP_LABEL ++ MAP_OPENER)) n) := by
  rw [getSpecificTypeOpenerRow]
  simp [hkm]

theorem getSpecificTypeCloserRow_map {rv : Row} (n : Nat)
    (hkm : rv.kind = some MAP_KIND) :
    getSpecificTypeCloserRow rv 0 n =
      some (.closer rv.key (MAP_CLOSER ++ " ") n) := by
  rw [getSpecificTypeCloserRow]
  simp [hkm, String.append_empty_right]

theorem getSpecificTypeOpenerRow_array {rv : Row} {ac : Nat} (n : Nat)
    (hac : 0 < ac) (hkm : ¬ rv.kind = some MAP_KIND) :
    getSpecificTypeOpenerRow rv ac n =
      some (.opener rv.key (ARRAY_LABEL ++ strRepeat ARRAY_OPENER ac ++ " ") n) := by
  rw [getSpecificTypeOpenerRow]
  simp [hac, hkm, String.append_empty_right]

theorem getSpecificTypeCloserRow_array {rv : Row} {ac : Nat} (n : Nat)
    (hac : 0 < ac) (hkm : ¬ rv.kind = some MAP_KIND) :
    getSpecificTypeCloserRow rv ac n =
      some (.closer rv.key (" " ++ strRepeat ARRAY_CLOSER ac) n) := by
  rw [getSpecificTypeCloserRow]
  simp [hac, hkm]

/-- C4: for every expanded Row of map kind whose two children carry the
internal "key"/"value" role identifiers, materialization emits exactly two
child display rows titled with the human-readable labels (the first "Key",
the second "Value"), between the map opener and closer markers, and their
titles are not the raw internal role names. -/
theorem c4_map_children_titles (item tmr k v : Row) (S : List String) (n : Nat)
    (he : item.isExpandable = true) (hk : S.contains item.key = true)
    (htm : item.typeMetadata = some tmr) (hkind : tmr.kind = some MAP_KIND)
    (htmtm : tmr.typeMetadata = none) (hch : tmr.children = some [k, v])
    (hkn : k.name = MAP_KEY_NAME) (hvn : v.name = MAP_VALUE_NAME)
    (hks : S.contains k.key = false) (hvs : S.contains v.key = false) :
    getTableRows [item] S n =
      .ok [some (.parent item.key item n),
           some (.opener tmr.key (" " ++ (MAP_LABEL ++ MAP_OPENER)) n),
           some (.parent k.key (k.withTitle MAP_KEY_DISPLAY_NAME) (n + 1)),
           some (.parent v.key (v.withTitle MAP_VALUE_DISPLAY_NAME) (n + 1)),
           some (.closer tmr.key (MAP_CLOSER ++ " ") n)] ∧
    (k.withTitle MAP_KEY_DISPLAY_NAME).title = "Key" ∧
    (v.withTitle MAP_VALUE_DISPLAY_NAME).title = "Value" ∧
    MAP_KEY_DISPLAY_NAME ≠ MAP_KEY_NAME ∧ MAP_KEY_DISPLAY_NAME ≠ MAP_VALUE_NAME ∧
    MAP_VALUE_DISPLAY_NAME ≠ MAP_KEY_NAME ∧
    MAP_VALUE_DISPLAY_NAME ≠ MAP_VALUE_NAME := by
  have hka : ¬ tmr.kind = some ARRAY_KIND := by
    rw [hkind]
    simp [MAP_KIND, ARRAY_KIND]
  have hfcd : getFormattedChildrenData tmr = .ok [k, v] := by
    rw [getFormattedChildrenData, htmtm, hch]
    simp [formatChildrenData]
  have hmap : updateMapDisplayNames [k, v] =
      [k.withTitle MAP_KEY_DISPLAY_NAME, v.withTitle MAP_VALUE_DISPLAY_NAME] := by
    have hne : ¬ MAP_VALUE_NAME = MAP_KEY_NAME := by decide
    simp [updateMapDisplayNames, hkn, hvn, hne]
  have hh : handleSpecificTypeRowData item =
      .ok (tmr, [k.withTitle MAP_KEY_DISPLAY_NAME,
                 v.withTitle MAP_VALUE_DISPLAY_NAME], 0) := by
    rw [handleSpecific_not_array (initialRowValuesToDisplay_of_some htm) hka, hfcd]
    simp [hkind, hmap]
  have hguard : (item.isExpandable && S.contains item.key) = true := by
    rw [he, hk, Bool.true_and]
  have hgk : ((k.withTitle MAP_KEY_DISPLAY_NAME).isExpandable &&
      S.contains (k.withTitle MAP_KEY_DISPLAY_NAME).key) = false := by
    rw [Row.key_withTitle, hks, Bool.and_false]
  have hgv : ((v.withTitle MAP_VALUE_DISPLAY_NAME).isExpandable &&
      S.contains (v.withTitle MAP_VALUE_DISPLAY_NAME).key) = false := by
    rw [Row.key_withTitle, hvs, Bool.and_false]
  refine ⟨?_, Row.title_withTitle k _, Row.title_withTitle v _,
    by decide, by decide, by decide, by decide⟩
  rw [getTableRows_cons_expanded hguard hh, getTableRows_nil,
    getTableRows_cons_not_expanded hgk, getTableRows_cons_not_expanded hgv,
    getTableRows_nil]
  rw [getSpecificTypeOpenerRow_map n hkind, getSpecificTypeCloserRow_map n hkind]
  simp [Row.key_withTitle]

/-- C4 witness: the map-children theorem applied at a concrete map column
with internally named key/value children. -/
theorem c4_witness :
    getTableRows
      [Row.mk "c" "" none true "t"
        (some (Row.mk "m" "" (some MAP_KIND) true "m"
          none (some [Row.mk "mk" MAP_KEY_NAME none false "x" none none,
                      Row.mk "mv" MAP_VALUE_NAME none false "y" none none])))
        none] ["c"] 0 =
      .ok [some (.parent "c"
             (Row.mk "c" "" none true "t"
               (some (Row.mk "m" "" (some MAP_KIND) true "m"
                 none (some [Row.mk "mk" MAP_KEY_NAME none false "x" none none,
                             Row.mk "mv" MAP_VALUE_NAME none false "y" none none])))
               none) 0),
           some (.opener "m" (" " ++ (MAP_LABEL ++ MAP_OPENER)) 0),
           some (.parent "mk"
             (Row.mk "mk" MAP_KEY_NAME none false MAP_KEY_DISPLAY_NAME none none) 1),
           some (.parent "mv"
             (Row.mk "mv" MAP_VALUE_NAME none false MAP_VALUE_DISPLAY_NAME none none)
             1),
           some (.closer "m" (MAP_CLOSER ++ " ") 0)] ∧
    (Row.mk "mk" MAP_KEY_NAME none false "x" none none
      |>.withTitle MAP_KEY_DISPLAY_NAME).title = "Key" ∧
    (Row.mk "mv" MAP_VALUE_NAME none false "y" none none
      |>.withTitle MAP_VALUE_DISPLAY_NAME).title = "Value" ∧
    MAP_KEY_DISPLAY_NAME ≠ MAP_KEY_NAME ∧ MAP_KEY_DISPLAY_NAME ≠ MAP_VALUE_NAME ∧
    MAP_VALUE_DISPLAY_NAME ≠ MAP_KEY_NAME ∧
    MAP_VALUE_DISPLAY_NAME ≠ MAP_VALUE_NAME :=
  c4_map_children_titles
    (Row.mk "c" "" none true "t"
      (some (Row.mk "m" "" (some MAP_KIND) true "m"
        none (some [Row.mk "mk" MAP_KEY_NAME none false "x" none none,
                    Row.mk "mv" MAP_VALUE_NAME none false "y" none none])))
      none)
    (Row.mk "m" "" (some MAP_KIND) true "m"
      none (some [Row.mk "mk" MAP_KEY_NAME none false "x" none none,
                  Row.mk "mv" MAP_VALUE_NAME none false "y" none none]))
    (Row.mk "mk" MAP_KEY_NAME none false "x" none none)
    (Row.mk "mv" MAP_VALUE_NAME none false "y" none none)
    ["c"] 0 rfl (by simp [Row.key]) rfl rfl rfl rfl rfl rfl
    (by simp [Row.key]) (by simp [Row.key])

/-- Terminal scalar of the array chains: non-expandable, non-array kind. -/
def scalarTerminal : Row := .mk "s" "" (some "scalar") false "" none none

/-- An `N`-level nested array chain: `arrayChain (i + 1)` is an array-kinded
expandable row whose single child is the next level down; `arrayChain 0` is
the scalar terminal. -/
def arrayChain : Nat → Row
  | 0 => scalarTerminal
  | n + 1 =>
    .mk ("a" ++ toString (n + 1)) "" (some ARRAY_KIND) true "" none
      (some [arrayChain n])

/-- A column row whose `typeMetadata` is an `N`-level array chain ending in
the scalar terminal. -/
def arrayCol (N : Nat) : Row :=
  .mk "col" "" none true "" (some (arrayChain N)) none

theorem getFormattedChildrenData_arrayChain (k : Nat) :
    getFormattedChildrenData (arrayChain (k + 1)) = .ok [arrayChain k] := by
  rw [arrayChain, getFormattedChildrenData]
  simp [Row.typeMetadata, Row.children, formatChildrenData]

theorem specificTypeLoop_arrayChain :
    ∀ k, 1 ≤ k → ∀ ac, specificTypeLoop (arrayChain k) ac =
      .ok (arrayChain 1, ac + k) := by
  intro k
  induction k with
  | zero => intro h; omega
  | succ m ih =>
    intro _ ac
    cases m with
    | zero =>
      rw [specificTypeLoop]
      have hkind : (arrayChain 1).kind = some ARRAY_KIND := by
        rw [arrayChain]; rfl
      rw [if_pos hkind, getFormattedChildrenData_arrayChain 0]
      have hexp : (arrayChain 0).isExpandable = false := by
        rw [arrayChain]; rfl
      have hsc : ¬ (arrayChain 0).kind = some ARRAY_KIND := by
        rw [arrayChain]; simp [scalarTerminal, Row.kind, ARRAY_KIND]
      simp [hexp, hsc]
    | succ p =>
      rw [specificTypeLoop]
      have hkind : (arrayChain (p + 1 + 1)).kind = some ARRAY_KIND := by
        rw [arrayChain]; rfl
      rw [if_pos hkind, getFormattedChildrenData_arrayChain (p + 1)]
      have hexp : (arrayChain (p + 1)).isExpandable = true := by
        rw [arrayChain]; rfl
      simp only [hexp, if_true]
      rw [ih (by omega) (ac + 1)]
      have harith : ac + 1 + (p + 1) = ac + (p + 1 + 1) := by omega
      rw [harith]

theorem arrayCol_handle (N : Nat) (hN : 1 ≤ N) :
    handleSpecificTypeRowData (arrayCol N) = .ok (arrayChain 1, [], N) := by
  have hinit : initialRowValuesToDisplay (arrayCol N) = arrayChain N :=
    initialRowValuesToDisplay_of_some rfl
  rw [handleSpecificTypeRowData, hinit, specificTypeLoop_arrayChain N hN 0]
  have hkind : (arrayChain 1).kind = some ARRAY_KIND := by
    rw [arrayChain]; rfl
  simp [hkind]

theorem arrayChain_one_not_map : ¬ (arrayChain 1).kind = some MAP_KIND := by
  rw [arrayChain]
  simp [Row.kind, ARRAY_KIND, MAP_KIND]

/-- C1 counterexample: a 2-level array chain with a non-expandable scalar
terminal, materialized with every key of the tree expanded, yields only the
parent row, one opener and one closer — ZERO display rows between the
markers, where the claim demands exactly one display row for the terminal
scalar's children. -/
theorem c1_counterexample :
    getTableRows [arrayCol 2] ["col", "a2", "a1", "s"] 0 =
      .ok [some (.parent "col" (arrayCol 2) 0),
           some (.opener "a1" (ARRAY_LABEL ++ strRepeat ARRAY_OPENER 2 ++ " ") 0),
           some (.closer "a1" (" " ++ strRepeat ARRAY_CLOSER 2) 0)] := by
  have hh := arrayCol_handle 2 (by omega)
  have hguard : ((arrayCol 2).isExpandable &&
      (["col", "a2", "a1", "s"] : List String).contains (arrayCol 2).key) = true := by
    decide
  rw [getTableRows_cons_expanded hguard hh, getTableRows_nil, getTableRows_nil]
  rw [getSpecificTypeOpenerRow_array 0 (by omega) arrayChain_one_not_map,
    getSpecificTypeCloserRow_array 0 (by omega) arrayChain_one_not_map]
  rfl

/-- C1 as amended: for an `N`-level array chain (N ≥ 1) ending in a
non-expandable scalar terminal, materializing with the column key expanded
emits exactly one opener row whose label carries `N` opening bracket
symbols, no display row for the intermediate array layers AND no display
row for the scalar terminal (the code suppresses the terminal state row
when the innermost resolved kind is array), and exactly one closer row
carrying `N` closing bracket symbols. -/
theorem c1_array_chain_opener_closer (N : Nat) (hN : 1 ≤ N) (S : List String)
    (hcol : S.contains "col" = true) :
    getTableRows [arrayCol N] S 0 =
      .ok [some (.parent "col" (arrayCol N) 0),
           some (.opener (arrayChain 1).key
             (ARRAY_LABEL ++ strRepeat ARRAY_OPENER N ++ " ") 0),
           some (.closer (arrayChain 1).key (" " ++ strRepeat ARRAY_CLOSER N) 0)] ∧
    countChar (ARRAY_LABEL ++ strRepeat ARRAY_OPENER N ++ " ") '[' = N ∧
    countChar (" " ++ strRepeat ARRAY_CLOSER N) ']' = N := by
  have hh := arrayCol_handle N hN
  have hguard : ((arrayCol N).isExpandable && S.contains (arrayCol N).key) = true := by
    have h1 : (arrayCol N).isExpandable = true := rfl
    have h2 : (arrayCol N).key = "col" := rfl
    rw [h1, h2, hcol, Bool.true_and]
  refine ⟨?_, ?_, ?_⟩
  · rw [getTableRows_cons_expanded hguard hh, getTableRows_nil, getTableRows_nil]
    rw [getSpecificTypeOpenerRow_array 0 (by omega) arrayChain_one_not_map,
      getSpecificTypeCloserRow_array 0 (by omega) arrayChain_one_not_map]
    rfl
  · have e1 : countChar ARRAY_LABEL '[' = 0 := by decide
    have e2 : countChar " " '[' = 0 := by decide
    have e3 : countChar ARRAY_OPENER '[' = 1 := by decide
    rw [countChar_append, countChar_append, countChar_strRepeat, e1, e2, e3]
    omega
  · have e1 : countChar " " ']' = 0 := by decide
    have e2 : countChar ARRAY_CLOSER ']' = 1 := by decide
    rw [countChar_append, countChar_strRepeat, e1, e2]
    omega

/-- C1 witness: the amended theorem applied at a concrete 2-level chain
with every key of the tree in the expansion state. -/
theorem c1_witness :
    getTableRows [arrayCol 2] ["col", "a2", "a1", "s"] 0 =
      .ok [some (.parent "col" (arrayCol 2) 0),
           some (.opener (arrayChain 1).key
             (ARRAY_LABEL ++ strRepeat ARRAY_OPENER 2 ++ " ") 0),
           some (.closer (arrayChain 1).key (" " ++ strRepeat ARRAY_CLOSER 2) 0)] ∧
    countChar (ARRAY_LABEL ++ strRepeat ARRAY_OPENER 2 ++ " ") '[' = 2 ∧
    countChar (" " ++ strRepeat ARRAY_CLOSER 2) ']' = 2 :=
  c1_array_chain_opener_closer 2 (by omega) ["col", "a2", "a1", "s"] (by decide)

theorem getSpecificTypeOpenerRow_ne_parent (rv : Row) (ac n : Nat) (k : String)
    (r : Row) (lv : Nat) :
    getSpecificTypeOpenerRow rv ac n ≠ some (.parent k r lv) := by
  rw [getSpecificTypeOpenerRow]
  split
  · simp
  · simp

theorem getSpecificTypeCloserRow_ne_parent (rv : Row) (ac n : Nat) (k : String)
    (r : Row) (lv : Nat) :
    getSpecificTypeCloserRow rv ac n ≠ some (.parent k r lv) := by
  rw [getSpecificTypeCloserRow]
  split
  · simp
  · simp

/-- A row is exposed by the materializer for expansion state `S` and input
`data` iff it is a top-level input row, or an effective (specific-type
unwrapped) child of an exposed row whose own key is in `S` — each deeper
level requires its parent's key to be present. -/
inductive Exposed (S : List String) (data : List Row) : Row → Prop where
  | top : ∀ r, r ∈ data → Exposed S data r
  | child : ∀ p rv fc ac r, Exposed S data p → p.isExpandable = true →
      S.contains p.key = true →
      handleSpecificTypeRowData p = .ok (rv, fc, ac) → r ∈ fc →
      Exposed S data r

theorem Exposed.mono {S : List String} {d d' : List Row} {q : Row}
    (h : Exposed S d' q) (hall : ∀ r ∈ d', Exposed S d r) : Exposed S d q := by
  induction h with
  | top r hr => exact hall r hr
  | child p rv fc ac r hp hexp hkey hh hm ih =>
    exact Exposed.child p rv fc ac r ih hexp hkey hh hm

/-- C9: for every Row tree and expansion state, a parent display row in the
flattened output belongs to a row that is exposed: a top-level row, or
reachable through a chain of effective children each of whose parents has
its key in the expansion state — a descendant more than one level below an
expanded row appears only when its own ancestor keys down to it are all
present. -/
theorem c9_one_level_exposure :
    ∀ (data : List Row) (S : List String) (n : Nat)
      (out : List (Option DisplayRow)),
      getTableRows data S n = .ok out →
      ∀ (k : String) (r : Row) (lv : Nat),
        some (DisplayRow.parent k r lv) ∈ out → Exposed S data r := by
  intro data S n
  induction data, S, n using getTableRows.induct with
  | case1 S n =>
    intro out h k r lv hm
    rw [getTableRows_nil] at h
    simp only [Except.ok.injEq] at h
    subst h
    cases hm
  | case2 S n hd tl hg e hh =>
    intro out h k r lv hm
    rw [getTableRows_cons_handle_error hg hh] at h
    cases h
  | case3 S n hd tl hg rv fc ac hh e hch ih =>
    intro out h k r lv hm
    rw [getTableRows_cons_expanded hg hh, hch] at h
    cases h
  | case4 S n hd tl hg rv fc ac hh childRows hch e hrest ih1 ih2 =>
    intro out h k r lv hm
    rw [getTableRows_cons_expanded hg hh, hch, hrest] at h
    simp at h
  | case5 S n hd tl hg rv fc ac hh childRows hch restRows hrest ih1 ih2 =>
    intro out h k r lv hm
    rw [getTableRows_cons_expanded hg hh, hch, hrest] at h
    simp only [List.cons_append, List.nil_append, List.append_assoc,
      Except.ok.injEq] at h
    subst h
    rw [Bool.and_eq_true] at hg
    obtain ⟨hexp, hkey⟩ := hg
    simp only [List.mem_cons, List.mem_append] at hm
    rcases hm with hm | hm | hm | hm | hm
    · simp only [Option.some.injEq, DisplayRow.parent.injEq] at hm
      obtain ⟨-, h2, -⟩ := hm
      subst h2
      exact Exposed.top r (by simp)
    · exact absurd hm.symm (getSpecificTypeOpenerRow_ne_parent rv ac n k r lv)
    · have hq : ∀ q ∈ fc, Exposed S (hd :: tl) q := fun q hqm =>
        Exposed.child hd rv fc ac q (Exposed.top hd (by simp)) hexp hkey hh hqm
      exact Exposed.mono (ih1 childRows hch k r lv hm) hq
    · exact absurd hm.symm (getSpecificTypeCloserRow_ne_parent rv ac n k r lv)
    · have hq : ∀ q ∈ tl, Exposed S (hd :: tl) q := fun q hqm =>
        Exposed.top q (by simp [hqm])
      exact Exposed.mono (ih2 restRows hrest k r lv hm) hq
  | case6 S n hd tl hg e hrest ih =>
    intro out h k r lv hm
    have hgf : (hd.isExpandable && S.contains hd.key) = false := by
      simpa using hg
    rw [getTableRows_cons_not_expanded hgf, hrest] at h
    cases h
  | case7 S n hd tl hg restRows hrest ih =>
    intro out h k r lv hm
    have hgf : (hd.isExpandable && S.contains hd.key) = false := by
      simpa using hg
    rw [getTableRows_cons_not_expanded hgf, hrest] at h
    simp only [Except.ok.injEq] at h
    subst h
    rcases List.mem_cons.mp hm with hm | hm
    · simp only [Option.some.injEq, DisplayRow.parent.injEq] at hm
      obtain ⟨-, h2, -⟩ := hm
      subst h2
      exact Exposed.top r (by simp)
    · have hq : ∀ q ∈ tl, Exposed S (hd :: tl) q := fun q hqm =>
        Exposed.top q (by simp [hqm])
      exact Exposed.mono (ih restRows hrest k r lv hm) hq

/-- C9 witness: the exposure theorem applied at a single non-expandable
top-level row materialized with an empty expansion state. -/
theorem c9_witness :
    Exposed [] [Row.mk "x" "" none false "" none none]
      (Row.mk "x" "" none false "" none none) :=
  c9_one_level_exposure [Row.mk "x" "" none false "" none none] [] 0
    [some (.parent "x" (Row.mk "x" "" none false "" none none) 0)]
    (by
      have hgf : ((Row.mk "x" "" none false "" none none).isExpandable &&
          ([] : List String).contains
            (Row.mk "x" "" none false "" none none).key) = false := rfl
      rw [getTableRows_cons_not_expanded hgf, getTableRows_nil]
      rfl)
    "x" (Row.mk "x" "" none false "" none none) 0 (by simp)

theorem getSpecificTypeOpenerRow_isSome_iff (rv : Row) (ac n : Nat) :
    (getSpecificTypeOpenerRow rv ac n).isSome ↔
      (0 < ac ∨ rv.kind = some MAP_KIND) := by
  rw [getSpecificTypeOpenerRow]
  split
  · rename_i hc
    simpa using hc
  · rename_i hc
    simpa using hc

theorem getSpecificTypeCloserRow_isSome_iff (rv : Row) (ac n : Nat) :
    (getSpecificTypeCloserRow rv ac n).isSome ↔
      (0 < ac ∨ rv.kind = some MAP_KIND) := by
  rw [getSpecificTypeCloserRow]
  split
  · rename_i hc
    simpa using hc
  · rename_i hc
    simpa using hc

theorem getSpecificTypeOpenerRow_bracket_count (rv : Row) (ac n : Nat)
    (key lbl : String) (lv : Nat)
    (h : getSpecificTypeOpenerRow rv ac n = some (.opener key lbl lv)) :
    countChar lbl '[' = ac := by
  rw [getSpecificTypeOpenerRow] at h
  split at h
  · simp only [Option.some.injEq, DisplayRow.opener.injEq] at h
    obtain ⟨-, h2, -⟩ := h
    subst h2
    have e1 : countChar ARRAY_LABEL '[' = 0 := by decide
    have e2 : countChar " " '[' = 0 := by decide
    have e3 : countChar ARRAY_OPENER '[' = 1 := by decide
    have e4 : countChar (MAP_LABEL ++ MAP_OPENER) '[' = 0 := by decide
    have e0 : countChar "" '[' = 0 := rfl
    by_cases hac : ac > 0
    · by_cases hkm : rv.kind = some MAP_KIND <;>
        simp [hac, hkm, countChar_append, countChar_strRepeat, e0, e1, e2, e3, e4]
    · have hz : ac = 0 := by omega
      subst hz
      by_cases hkm : rv.kind = some MAP_KIND <;>
        simp [hkm, countChar_append, countChar_strRepeat, e0, e1, e2, e3, e4]
  · cases h

theorem getSpecificTypeCloserRow_bracket_count (rv : Row) (ac n : Nat)
    (key lbl : String) (lv : Nat)
    (h : getSpecificTypeCloserRow rv ac n = some (.closer key lbl lv)) :
    countChar lbl ']' = ac := by
  rw [getSpecificTypeCloserRow] at h
  split at h
  · simp only [Option.some.injEq, DisplayRow.closer.injEq] at h
    obtain ⟨-, h2, -⟩ := h
    subst h2
    have e1 : countChar ARRAY_CLOSER ']' = 1 := by decide
    have e2 : countChar " " ']' = 0 := by decide
    have e3 : countChar MAP_CLOSER ']' = 0 := by decide
    have e0 : countChar "" ']' = 0 := rfl
    by_cases hac : ac > 0
    · by_cases hkm : rv.kind = some MAP_KIND <;>
        simp [hac, hkm, countChar_append, countChar_strRepeat, e0, e1, e2, e3]
    · have hz : ac = 0 := by omega
      subst hz
      by_cases hkm : rv.kind = some MAP_KIND <;>
        simp [hkm, countChar_append, countChar_strRepeat, e0, e1, e2, e3]
  · cases h

/-- C10: for every input, expansion state and expanded item, the
materialized output contains the item's parent row immediately followed by
the opener slot, all of the item's materialized children, then the closer
slot: the opener marker is present iff the closer is (both exactly when the
unwrapped kind is array with positive bracket count or map), the closer's
bracket repetition count equals the opener's (both equal the accumulated
array count), and the children lie strictly between the pair. -/
theorem c10_opener_closer_balanced :
    ∀ (data : List Row) (S : List String) (n : Nat)
      (out : List (Option DisplayRow)) (item : Row),
      getTableRows data S n = .ok out → item ∈ data →
      (item.isExpandable && S.contains item.key) = true →
      ∃ pre mid post rv fc ac,
        handleSpecificTypeRowData item = .ok (rv, fc, ac) ∧
        getTableRows fc S (n + 1) = .ok mid ∧
        out = pre ++ some (.parent item.key item n) ::
          getSpecificTypeOpenerRow rv ac n ::
          (mid ++ getSpecificTypeCloserRow rv ac n :: post) ∧
        ((getSpecificTypeOpenerRow rv ac n).isSome ↔
          (getSpecificTypeCloserRow rv ac n).isSome) ∧
        ((getSpecificTypeOpenerRow rv ac n).isSome ↔
          (0 < ac ∨ rv.kind = some MAP_KIND)) ∧
        (∀ key lbl lv, getSpecificTypeOpenerRow rv ac n = some (.opener key lbl lv) →
          countChar lbl '[' = ac) ∧
        (∀ key lbl lv, getSpecificTypeCloserRow rv ac n = some (.closer key lbl lv) →
          countChar lbl ']' = ac) := by
  intro data S n
  induction data, S, n using getTableRows.induct with
  | case1 S n =>
    intro out item h hm hg
    cases hm
  | case2 S n hd tl hg2 e hh =>
    intro out item h hm hg
    rw [getTableRows_cons_handle_error hg2 hh] at h
    cases h
  | case3 S n hd tl hg2 rv fc ac hh e hch ih =>
    intro out item h hm hg
    rw [getTableRows_cons_expanded hg2 hh, hch] at h
    cases h
  | case4 S n hd tl hg2 rv fc ac hh childRows hch e hrest ih1 ih2 =>
    intro out item h hm hg
    rw [getTableRows_cons_expanded hg2 hh, hch, hrest] at h
    simp at h
  | case5 S n hd tl hg2 rv fc ac hh childRows hch restRows hrest ih1 ih2 =>
    intro out item h hm hg
    rw [getTableRows_cons_expanded hg2 hh, hch, hrest] at h
    simp only [List.cons_append, List.nil_append, List.append_assoc,
      Except.ok.injEq] at h
    subst h
    rcases List.mem_cons.mp hm with hmi | hmi
    · subst hmi
      exact ⟨[], childRows, restRows, rv, fc, ac, hh, hch, by simp,
        (getSpecificTypeOpenerRow_isSome_iff rv ac n).trans
          (getSpecificTypeCloserRow_isSome_iff rv ac n).symm,
        getSpecificTypeOpenerRow_isSome_iff rv ac n,
        fun key lbl lv => getSpecificTypeOpenerRow_bracket_count rv ac n key lbl lv,
        fun key lbl lv => getSpecificTypeCloserRow_bracket_count rv ac n key lbl lv⟩
    · obtain ⟨pre, mid, post, rv', fc', ac', hh', hch', hout, hconj⟩ :=
        ih2 restRows item hrest hmi hg
      refine ⟨some (.parent hd.key hd n) :: getSpecificTypeOpenerRow rv ac n ::
        (childRows ++ getSpecificTypeCloserRow rv ac n :: pre), mid, post,
        rv', fc', ac', hh', hch', ?_, hconj⟩
      rw [hout]
      simp [List.append_assoc]
  | case6 S n hd tl hg2 e hrest ih =>
    intro out item h hm hg
    have hgf : (hd.isExpandable && S.contains hd.key) = false := by
      simpa using hg2
    rw [getTableRows_cons_not_expanded hgf, hrest] at h
    cases h
  | case7 S n hd tl hg2 restRows hrest ih =>
    intro out item h hm hg
    have hgf : (hd.isExpandable && S.contains hd.key) = false := by
      simpa using hg2
    rw [getTableRows_cons_not_expanded hgf, hrest] at h
    simp only [Except.ok.injEq] at h
    subst h
    rcases List.mem_cons.mp hm with hmi | hmi
    · subst hmi
      rw [hg] at hgf
      cases hgf
    · obtain ⟨pre, mid, post, rv', fc', ac', hh', hch', hout, hconj⟩ :=
        ih restRows item hrest hmi hg
      refine ⟨some (.parent hd.key hd n) :: pre, mid, post,
        rv', fc', ac', hh', hch', ?_, hconj⟩
      rw [hout]
      simp

/-- C10 witness: the balance theorem applied at a concrete 2-level array
column with its key expanded. -/
theorem c10_witness :
    ∃ pre mid post rv fc ac,
      handleSpecificTypeRowData (arrayCol 2) = .ok (rv, fc, ac) ∧
      getTableRows fc ["col"] (0 + 1) = .ok mid ∧
      [some (.parent "col" (arrayCol 2) 0),
       some (.opener "a1" (ARRAY_LABEL ++ strRepeat ARRAY_OPENER 2 ++ " ") 0),
       some (.closer "a1" (" " ++ strRepeat ARRAY_CLOSER 2) 0)] =
        pre ++ some (.parent (arrayCol 2).key (arrayCol 2) 0) ::
          getSpecificTypeOpenerRow rv ac 0 ::
          (mid ++ getSpecificTypeCloserRow rv ac 0 :: post) ∧
      ((getSpecificTypeOpenerRow rv ac 0).isSome ↔
        (getSpecificTypeCloserRow rv ac 0).isSome) ∧
      ((getSpecificTypeOpenerRow rv ac 0).isSome ↔
        (0 < ac ∨ rv.kind = some MAP_KIND)) ∧
      (∀ key lbl lv, getSpecificTypeOpenerRow rv ac 0 = some (.opener key lbl lv) →
        countChar lbl '[' = ac) ∧
      (∀ key lbl lv, getSpecificTypeCloserRow rv ac 0 = some (.closer key lbl lv) →
        countChar lbl ']' = ac) :=
  c10_opener_closer_balanced [arrayCol 2] ["col"] 0
    [some (.parent "col" (arrayCol 2) 0),
     some (.opener "a1" (ARRAY_LABEL ++ strRepeat ARRAY_OPENER 2 ++ " ") 0),
     some (.closer "a1" (" " ++ strRepeat ARRAY_CLOSER 2) 0)]
    (arrayCol 2)
    (by
      rw [getTableRows_cons_expanded (by decide) (arrayCol_handle 2 (by omega)),
        getTableRows_nil, getTableRows_nil]
      rw [getSpecificTypeOpenerRow_array 0 (by omega) arrayChain_one_not_map,
        getSpecificTypeCloserRow_array 0 (by omega) arrayChain_one_not_map]
      rfl)
    (by simp) (by decide)

end AmundsenTable
